import Mathlib

/-!
Verification of the edx-reports repository core logic: course-ID
normalization, report-filename parsing, directory scanning, course-catalog
pagination, retry/backoff, and the batch driver's exit-code policy.

Each Python function of the source is shallowly embedded as an executable
Lean definition; network transports are modelled as explicit oracles
(`Nat → PageFetch` for the paginated course endpoint, `Nat → Except E A`
for a retried operation, `String → Bool` for per-course report triggering).
-/

namespace EdxReports

/-! ## CourseIdentity (course_reports.py, `extract_course_short_id` / `extract_course_run`)

`extract_course_short_id` applies `re.match(r"course-v1:(.*?)\+(.*?)\+(.*)", s)`.
Python `re.match` anchors at the start only; `.` matches any character except
a newline; the two lazy groups `(.*?)` take the shortest run of non-newline
characters up to the next literal `+`; the final greedy `(.*)` takes every
remaining character up to the first newline (or the end). On a match the
function returns `group1_group2_group3`; otherwise it returns its input. -/

/-- Literal-prefix matching: `dropLit p s = some r` iff `s = p ++ r`.
Embeds matching the literal part `course-v1:` of the regex. -/
def dropLit : List Char → List Char → Option (List Char)
  | [], s => some s
  | _ :: _, [] => none
  | p :: ps, c :: cs => if c = p then dropLit ps cs else none

/-- Embeds the regex fragment `(.*?)\+`: the shortest run of non-newline
characters followed by a literal `+`; returns the run and the remainder. -/
def lazyUpToPlus : List Char → Option (List Char × List Char)
  | [] => none
  | c :: cs =>
    if c = '+' then some ([], cs)
    else if c = '\n' then none
    else match lazyUpToPlus cs with
         | some (a, r) => some (c :: a, r)
         | none => none

/-- Embeds the greedy regex fragment `(.*)`: all characters up to the first
newline (Python `.` does not match `'\n'`; `re.match` does not require the
match to reach the end of the string). -/
def takeToNewline (s : List Char) : List Char :=
  s.takeWhile (fun c => !(c = '\n'))

/-- Embeds `re.match(r"course-v1:(.*?)\+(.*?)\+(.*)", s)`, returning the
three captured groups on success. -/
def matchCourseShape (s : List Char) : Option (List Char × List Char × List Char) :=
  (dropLit "course-v1:".data s).bind fun r0 =>
  (lazyUpToPlus r0).bind fun p1 =>
  (lazyUpToPlus p1.2).bind fun p2 =>
  some (p1.1, p2.1, takeToNewline p2.2)

/-- course_reports.py `extract_course_short_id`: on a regex match return
`m[1] ++ "_" ++ m[2] ++ "_" ++ m[3]`, otherwise return the input unchanged. -/
def extract_course_short_id (course_id : String) : String :=
  match matchCourseShape course_id.data with
  | none => course_id
  | some (a, b, c) => ⟨a ++ '_' :: b ++ '_' :: c⟩

/-- course_reports.py `extract_course_run`: `course_id.split("+")[-1]`.
Python `str.split` on a separator always yields a non-empty list, so `[-1]`
is its last element (the whole string when no `+` occurs). -/
def extract_course_run (course_id : String) : String :=
  (course_id.splitOn "+").getLastD course_id

/-- The structural shape `course-v1:<A>+<B>+<C>` of a platform-qualified
course ID, with the canonical decomposition (`A` and `B` are the segments
before the first and second `+`, hence `+`-free; the regex additionally
requires them newline-free). -/
def matchesShape (s : String) : Prop :=
  ∃ A B C : List Char, '+' ∉ A ∧ '\n' ∉ A ∧ '+' ∉ B ∧ '\n' ∉ B ∧
    s.data = "course-v1:".data ++ A ++ '+' :: B ++ '+' :: C

/-! ## ReportFilenameParser (course_reports.py, `parse_filename`)

`parse_filename` applies
`re.match(r"(.*?)_(grade_report|student_profile_info|may_enroll_info|anonymized_ids|ORA_data)_(\d{4}-\d{2}-\d{2}-\d{4})\.csv", filename)`.
The lazy first group backtracks: the shortest non-newline prefix is taken
such that the rest of the pattern matches right after it. `re.match`
anchors at the start only, so trailing characters after `.csv` are
allowed. On a match, the date string is re-parsed with
`datetime.strptime(date_str, "%Y-%m-%d-%H%M")`; if that raises (an
out-of-range field), the descriptor is still returned with `date = None`. -/

/-- A UTC timestamp at minute resolution, as parsed from a report
filename (the source's `datetime` with `tzinfo=timezone.utc`). -/
structure UtcStamp where
  year : Nat
  month : Nat
  day : Nat
  hour : Nat
  minute : Nat
deriving DecidableEq

/-- The fixed report-kind alternation of the filename regex (and the kind
enumeration iterated by `process_courses_data`), in source order. -/
def report_kinds : List String :=
  ["grade_report", "student_profile_info", "may_enroll_info", "anonymized_ids", "ORA_data"]

/-- Match one literal character. -/
def expectChar (c : Char) : List Char → Option (List Char)
  | [] => none
  | x :: xs => if x = c then some xs else none

/-- Match the report-kind alternation at the current position. The five
alternatives start with pairwise distinct characters, so at most one can
match and trying them in source order is exact. -/
def matchKind (s : List Char) : Option (String × List Char) :=
  report_kinds.findSome? (fun k =>
    if k.data.isPrefixOf s then some (k, s.drop k.data.length) else none)

/-- Numeric value of a digit run (how `strptime` reads a digit field). -/
def digitsToNat (ds : List Char) : Nat :=
  ds.foldl (fun acc c => acc * 10 + (c.toNat - '0'.toNat)) 0

/-- Match exactly `n` digits (`\d{n}`) and return their numeric value. -/
def matchDigits (n : Nat) (s : List Char) : Option (Nat × List Char) :=
  let ds := s.take n
  if ds.length = n ∧ ds.all Char.isDigit then some (digitsToNat ds, s.drop n) else none

/-- Match `\d{4}-\d{2}-\d{2}-\d{4}\.csv` (with arbitrary trailing
characters allowed, as `re.match` does not anchor the end) and return the
numeric fields `(year, month, day, hour, minute)`; the trailing 4-digit
group is read as `%H%M`, two digits each. -/
def matchDateCsv (s : List Char) : Option (Nat × Nat × Nat × Nat × Nat) :=
  match matchDigits 4 s with
  | none => none
  | some (y, s1) =>
    match expectChar '-' s1 with
    | none => none
    | some s2 =>
      match matchDigits 2 s2 with
      | none => none
      | some (mo, s3) =>
        match expectChar '-' s3 with
        | none => none
        | some s4 =>
          match matchDigits 2 s4 with
          | none => none
          | some (d, s5) =>
            match expectChar '-' s5 with
            | none => none
            | some s6 =>
              match matchDigits 4 s6 with
              | none => none
              | some (hm, s7) =>
                if ".csv".data.isPrefixOf s7 then
                  some (y, mo, d, hm / 100, hm % 100)
                else none

/-- Match `_<kind>_<date>.csv` directly after a candidate first group. -/
def matchAfterCourse (s : List Char) : Option (String × Nat × Nat × Nat × Nat × Nat) :=
  match expectChar '_' s with
  | none => none
  | some s1 =>
    match matchKind s1 with
    | none => none
    | some (k, s2) =>
      match expectChar '_' s2 with
      | none => none
      | some s3 => (matchDateCsv s3).map (fun dt => (k, dt))

/-- The lazy first group `(.*?)`: try the shortest candidate course prefix
first and extend one (non-newline) character at a time, exactly as the
backtracking regex engine does. -/
def reScan : List Char → List Char → Option (List Char × String × Nat × Nat × Nat × Nat × Nat)
  | acc, s =>
    match matchAfterCourse s with
    | some kd => some (acc, kd)
    | none =>
      match s with
      | [] => none
      | c :: rest => if c = '\n' then none else reScan (acc ++ [c]) rest

/-- Gregorian leap year (as Python's `datetime`). -/
def isLeapYear (y : Nat) : Bool :=
  y % 4 = 0 && (y % 100 ≠ 0 || y % 400 = 0)

/-- Days in a month (as Python's `datetime`). -/
def daysInMonth (y m : Nat) : Nat :=
  if m = 2 then (if isLeapYear y then 29 else 28)
  else if m = 4 || m = 6 || m = 9 || m = 11 then 30
  else 31

/-- Whether `strptime(date_str, "%Y-%m-%d-%H%M")` accepts the parsed
fields: `datetime` requires `1 <= year <= 9999`, a valid month/day, hour
`0..23` and minute `0..59`; otherwise the source catches the exception and
stores `None` for the date. -/
def validStamp (y mo d hh mm : Nat) : Bool :=
  1 ≤ y && y ≤ 9999 && 1 ≤ mo && mo ≤ 12 && 1 ≤ d && d ≤ daysInMonth y mo &&
    hh ≤ 23 && mm ≤ 59

/-- The descriptor dictionary returned by `parse_filename` (keys
`course_id`, `report_type`, `date`, in insertion order). -/
structure ParsedName where
  course_id : String
  report_type : String
  date : Option UtcStamp
deriving DecidableEq

/-- course_reports.py `parse_filename`. -/
def parse_filename (filename : String) : Option ParsedName :=
  match reScan [] filename.data with
  | none => none
  | some (course, kind, y, mo, d, hh, mm) =>
    some { course_id := ⟨course⟩, report_type := kind,
           date := if validStamp y mo d hh mm then some ⟨y, mo, d, hh, mm⟩ else none }

/-! ## ReportFileCorrelator (course_reports.py, `scan_grade_reports` / `process_courses_data`) -/

/-- A cell of the scanned report table (string- or timestamp-valued). -/
inductive Cell where
  | str (s : String)
  | stamp (d : Option UtcStamp)
deriving DecidableEq

/-- One row of the scanned report table: the dictionary built during the
walk (`parse_filename`'s keys plus the added `path`). -/
structure ReportRow where
  course_id : String
  report_type : String
  date : Option UtcStamp
  path : String
deriving DecidableEq

/-- `os.path.join(root, f)`: `f` replaces the whole path when absolute,
otherwise it is appended with a single separator. -/
def osPathJoin (root f : String) : String :=
  if f.startsWith "/" then f
  else if root = "" then f
  else if root.endsWith "/" then root ++ f
  else root ++ "/" ++ f

/-- course_reports.py `scan_grade_reports`, with the `os.walk` output
supplied as a list of `(root, files)` pairs: every file whose name parses
becomes one row, in walk order. -/
def scan_grade_reports (walk : List (String × List String)) : List ReportRow :=
  walk.flatMap (fun rf =>
    rf.2.filterMap (fun f =>
      (parse_filename f).map (fun p =>
        { course_id := p.course_id, report_type := p.report_type,
          date := p.date, path := osPathJoin rf.1 f })))

/-- The key/value dictionary of one scanned row, in the source's insertion
order (`parse_filename` inserts `course_id`, `report_type`, `date`; the
scanner then adds `path`). -/
def rowKeyValues (r : ReportRow) : List (String × Cell) :=
  [("course_id", .str r.course_id), ("report_type", .str r.report_type),
   ("date", .stamp r.date), ("path", .str r.path)]

/-- One step of pandas' column-union construction: append a key unless
already present. -/
def insertCol (acc : List String) (k : String) : List String :=
  if k ∈ acc then acc else acc ++ [k]

/-- pandas `DataFrame(rows)` built from a list of dictionaries derives its
columns as the union of the rows' keys in first-seen order. -/
def dfColumnsOfRows (rows : List (List (String × Cell))) : List String :=
  rows.foldl (fun acc r => (r.map Prod.fst).foldl insertCol acc) []

/-- The column list of the DataFrame returned by `scan_grade_reports`: the
explicitly constructed four-column empty frame when no filename parsed,
otherwise the columns pandas derives from the row dictionaries. -/
def scanColumns (walk : List (String × List String)) : List String :=
  let rows := (scan_grade_reports walk).map rowKeyValues
  if rows.isEmpty then ["course_id", "report_type", "date", "path"]
  else dfColumnsOfRows rows

/-- A course record from the platform API as used by
`process_courses_data` (`course["id"]`, `course["name"]`). -/
structure CourseInfo where
  id : String
  name : String
deriving DecidableEq

/-- One row of the summary table built by `process_courses_data`. Field
names transliterate the source's Russian column labels, in order:
course_name = Название курса, course = Курс, course_run = Запуск курса,
report_type = Тип отчета, last_report = Последний отчет,
days_since = Дней с отчета, file = Файл. `last_report` keeps the
timestamp the source formats with `strftime`. -/
structure SummaryRow where
  course_name : String
  course : String
  course_run : String
  report_type : String
  last_report : Option UtcStamp
  days_since : Option Int
  file : Option String
deriving DecidableEq

/-- Day number of a civil date (standard days-from-civil algorithm),
used to model `datetime` subtraction. -/
def daysFromCivil (y m d : Int) : Int :=
  let yy := if m ≤ 2 then y - 1 else y
  let era := yy.fdiv 400
  let yoe := yy - era * 400
  let mp := (m + 9) % 12
  let doy := (153 * mp + 2).fdiv 5 + d - 1
  let doe := yoe * 365 + yoe.fdiv 4 - yoe.fdiv 100 + doy
  era * 146097 + doe - 719468

/-- Minutes since the epoch of a UTC timestamp (the resolution of the
parsed filenames); `datetime` differences reduce to differences here. -/
def stampMinutes (s : UtcStamp) : Int :=
  daysFromCivil s.year s.month s.day * 1440 + s.hour * 60 + s.minute

/-- Chronological order on optional dates as pandas sorts them: a null
date (`NaT`) sorts after every real date in `sort_values(..., ascending=False)`. -/
def dateLt : Option UtcStamp → Option UtcStamp → Bool
  | none, none => false
  | none, some _ => true
  | some _, none => false
  | some a, some b => stampMinutes a < stampMinutes b

/-- `sub.sort_values("date", ascending=False).iloc[0]`: a row with maximal
date, nulls last. Among equal dates pandas' unstable sort fixes no order;
this model keeps the first such row (no claim depends on the tie order). -/
def latestReport (sub : List ReportRow) : Option ReportRow :=
  sub.foldl (fun best r =>
    match best with
    | none => some r
    | some b => if dateLt b.date r.date then some r else some b) none

/-- course_reports.py `process_courses_data`; `now` is the
`datetime.now(timezone.utc)` instant at minute resolution. For a
(course, kind) pair with at least one scanned report, the most recent row
is emitted; the source's `else` branch assigns `None` placeholders to
local variables but never appends a row, so such pairs are dropped from
the output. (A retained row whose date is null would make the source's
`(now - date).days` raise; that arithmetic is modelled as a `none` age.) -/
def process_courses_data (now : UtcStamp) (courses : List CourseInfo)
    (df_reports : List ReportRow) : List SummaryRow :=
  courses.flatMap (fun course =>
    let cid_short := extract_course_short_id course.id
    let run := extract_course_run course.id
    let reports := df_reports.filter (fun r => r.course_id == cid_short)
    report_kinds.filterMap (fun rtype =>
      let sub := reports.filter (fun r => r.report_type == rtype)
      match latestReport sub with
      | some last =>
          some { course_name := course.name, course := cid_short, course_run := run,
                 report_type := rtype, last_report := last.date,
                 days_since := last.date.map (fun d =>
                   (stampMinutes now - stampMinutes d).fdiv 1440),
                 file := some last.path }
      | none => none))

/-! ## CourseCatalogClient (main.py, `get_all_courses(session)`)

The spec's CourseCatalogClient — `listCourses(session)` of §4.2 — is
main.py's `get_all_courses`, the enumeration used by the batch driver: it
caps pagination at 10 pages, swallows page failures, and catches every
exception, returning `[]`. (course_reports.py carries a same-named,
uncapped helper used only by the two presentation layers, which the spec
places out of scope; its own tests assert that it propagates exceptions.)
The HTTP transport is modelled as an oracle from page number to response. -/

/-- A course record of a catalog page (`results` entries as used by the
driver: `id` and `name` via `.get`). -/
structure Course where
  id : Option String
  name : Option String
deriving DecidableEq

/-- The parsed JSON body of one catalog page: `results` (defaulted to `[]`
by `data.get("results", [])`) and the `next` pointer (`None` for JSON
null or a missing key). -/
structure PageJson where
  results : List Course
  next : Option String
deriving DecidableEq

/-- What one `session.get` of a catalog page yields: a response with a
status code and a parseable-or-not JSON body, or a raised transport
exception (timeout, connection error). -/
inductive PageFetch where
  | responded (status : Nat) (body : Option PageJson)
  | raised
deriving DecidableEq

/-- Python truthiness of the `next` pointer (`if not next_page`): JSON
null / missing key and the empty string are falsy. -/
def truthyNext : Option String → Bool
  | none => false
  | some s => !(s == "")

/-- Result of the paging loop: normal completion with the accumulated
courses, or an exception escaping the loop; both record the page numbers
requested, in order. -/
inductive FetchOutcome where
  | done (courses : List Course) (requests : List Nat)
  | exn (requests : List Nat)
deriving DecidableEq

/-- The page requests recorded in a `FetchOutcome`. -/
def FetchOutcome.requests : FetchOutcome → List Nat
  | .done _ reqs => reqs
  | .exn reqs => reqs

/-- The `while has_more` loop of main.py `get_all_courses`: request the
page; on status 200 parse the JSON (malformed JSON breaks), stop on an
empty `results` list, extend the accumulator, then continue only when
`next` is truthy and `page < 10` (the hard cap `page >= 10`); any other
status breaks; a raised transport error escapes the loop. -/
def get_all_courses_loop (ep : Nat → PageFetch) (page : Nat) (acc : List Course)
    (reqs : List Nat) : FetchOutcome :=
  match ep page with
  | .raised => .exn (reqs ++ [page])
  | .responded status body =>
    if status = 200 then
      match body with
      | none => .done acc (reqs ++ [page])
      | some data =>
        if data.results.isEmpty then .done acc (reqs ++ [page])
        else if _h : truthyNext data.next = true ∧ page < 10 then
          get_all_courses_loop ep (page + 1) (acc ++ data.results) (reqs ++ [page])
        else .done (acc ++ data.results) (reqs ++ [page])
    else .done acc (reqs ++ [page])
termination_by 10 - page
decreasing_by omega

/-- main.py `get_all_courses(session)`: run the loop from page 1; the
surrounding `try/except` turns any escaped exception into `[]`. Returns
the course list together with the page requests issued. -/
def get_all_courses (ep : Nat → PageFetch) : List Course × List Nat :=
  match get_all_courses_loop ep 1 [] [] with
  | .done cs reqs => (cs, reqs)
  | .exn reqs => ([], reqs)

/-- A page on which enumeration keeps going: HTTP 200, valid JSON,
non-empty `results`, truthy `next`. -/
def continuingPage (pf : PageFetch) : Prop :=
  ∃ data : PageJson, pf = .responded 200 (some data) ∧
    data.results ≠ [] ∧ truthyNext data.next = true

/-- A failed page in the sense of the spec: non-200 status, or 200 with
malformed JSON. -/
def failingPage (pf : PageFetch) : Prop :=
  ∃ status body, pf = .responded status body ∧ (status ≠ 200 ∨ body = none)

/-- A page answering 200 with valid JSON whose `results` list is empty. -/
def emptyResultsPage (pf : PageFetch) : Prop :=
  ∃ nx, pf = .responded 200 (some ⟨[], nx⟩)

/-- The courses a page contributes to the accumulator. -/
def pageResults : PageFetch → List Course
  | .responded 200 (some data) => data.results
  | _ => []

/-- A sample catalog course record. -/
def sampleCourse : Course :=
  { id := some "course-v1:U+C+R", name := some "C" }

/-- A synthetic endpoint whose every page answers 200 with one course and
a non-null `next` pointer (the spec's pagination-cap scenario). -/
def capEp : Nat → PageFetch := fun _ =>
  .responded 200 (some ⟨[sampleCourse], some "next"⟩)

/-- A synthetic endpoint whose first page succeeds (with a truthy `next`)
and whose second page answers 200 with malformed JSON. -/
def failEp : Nat → PageFetch := fun n =>
  if n = 1 then .responded 200 (some ⟨[sampleCourse], some "next"⟩)
  else .responded 200 none

/-- A synthetic endpoint whose first page succeeds (with a truthy `next`)
and whose second page answers 200 with an empty `results` list and a
non-null `next`. -/
def emptyEp : Nat → PageFetch := fun n =>
  if n = 1 then .responded 200 (some ⟨[sampleCourse], some "next"⟩)
  else .responded 200 (some ⟨[], some "next"⟩)

/-! ## Retry wrapper (main.py, `retry_operation`)

`retry_operation(operation, max_retries=2, delay=5)` runs
`for attempt in range(max_retries)`: a successful call returns its value;
a failed call on the last iteration re-raises; otherwise the wrapper
sleeps `delay` seconds and doubles `delay`. The operation is modelled as
an oracle from the 0-based attempt index to its outcome. -/

/-- The retry loop; `remaining` counts the iterations left of
`range(max_retries)` and `attempt` is the current 0-based index. Returns
(outcome, number of invocations, sleep durations in order); the outcome
is `none` when the loop body never ran (`max_retries = 0`, where the
Python function falls through and returns `None`). -/
def retryLoop {E A : Type} (op : Nat → Except E A) :
    Nat → Nat → Nat → List Nat → Option (Except E A) × Nat × List Nat
  | 0, attempt, _delay, sleeps => (none, attempt, sleeps)
  | remaining + 1, attempt, delay, sleeps =>
    match op attempt with
    | .ok a => (some (.ok a), attempt + 1, sleeps)
    | .error e =>
      if remaining = 0 then (some (.error e), attempt + 1, sleeps)
      else retryLoop op remaining (attempt + 1) (delay * 2) (sleeps ++ [delay])

/-- main.py `retry_operation` (defaults `max_retries = 2`, `delay = 5` at
the call site are passed explicitly here). -/
def retry_operation {E A : Type} (op : Nat → Except E A) (max_retries delay : Nat) :
    Option (Except E A) × Nat × List Nat :=
  retryLoop op max_retries 0 delay []

/-- An operation failing on its first two invocations and succeeding on
the third. -/
def thirdTryOp : Nat → Except String Nat := fun n =>
  if n ≥ 2 then .ok 42 else .error "boom"

/-! ## Batch driver (main.py, `main`)

The driver authenticates (any exception up to and including course
enumeration lands in the outer `except`, which returns 1 — modelled by
`authOk = false`), returns 1 when no course was discovered, then walks
the course list: entries whose `id` is missing or falsy are skipped with
`continue`, all others run the retried report trigger, incrementing
`success_count` or `failure_count`. After the loop the driver returns 1
iff `failure_count == len(courses) and courses`, else 0. The retried
trigger's ultimate outcome per course ID is modelled by an oracle. -/

/-- One entry of the enumerated course list as the driver reads it
(`course.get("id")`, `course.get("name", ...)`). -/
structure CourseEntry where
  id : Option String
  name : Option String
deriving DecidableEq

/-- `if not course_id:` — the entry is skipped when `id` is missing or
the empty string. -/
def entrySkipped (c : CourseEntry) : Bool :=
  match c.id with
  | none => true
  | some s => s == ""

/-- The per-course loop of `main` step 4, left to right over the course
list. Returns (success_count, failure_count, attempted course IDs in
order). -/
def course_trigger_loop (trigger : String → Bool) : List CourseEntry → Nat × Nat × List String
  | [] => (0, 0, [])
  | c :: rest =>
    match c.id with
    | none => course_trigger_loop trigger rest
    | some cid =>
      if cid = "" then course_trigger_loop trigger rest
      else if trigger cid then
        ((course_trigger_loop trigger rest).1 + 1, (course_trigger_loop trigger rest).2.1,
          cid :: (course_trigger_loop trigger rest).2.2)
      else
        ((course_trigger_loop trigger rest).1, (course_trigger_loop trigger rest).2.1 + 1,
          cid :: (course_trigger_loop trigger rest).2.2)

/-- main.py `main`'s process exit code (the value passed to `exit`). -/
def main_exit_code (authOk : Bool) (trigger : String → Bool)
    (courses : List CourseEntry) : Nat :=
  if authOk then
    if courses.isEmpty then 1
    else if (course_trigger_loop trigger courses).2.1 = courses.length ∧ ¬courses.isEmpty
      then 1 else 0
  else 1

/-- A course list in which every entry lacks a usable ID. -/
def noIdCourses : List CourseEntry :=
  [{ id := none, name := some "A" }, { id := some "", name := none }]

/-- A trigger oracle that always fails. -/
def alwaysFailTrigger : String → Bool := fun _ => false

end EdxReports

namespace EdxReports

theorem dropLit_append (p r : List Char) : dropLit p (p ++ r) = some r := by
  induction p with
  | nil => rfl
  | cons c cs ih => simp [dropLit, ih]

theorem lazyUpToPlus_append (a r : List Char) (hp : '+' ∉ a) (hn : '\n' ∉ a) :
    lazyUpToPlus (a ++ '+' :: r) = some (a, r) := by
  induction a with
  | nil => simp [lazyUpToPlus]
  | cons c cs ih =>
    simp only [List.mem_cons, not_or] at hp hn
    have hc : ¬(c = '+') := fun h => hp.1 h.symm
    have hcn : ¬(c = '\n') := fun h => hn.1 h.symm
    simp [lazyUpToPlus, hc, hcn, ih hp.2 hn.2]

theorem takeToNewline_all (c : List Char) (hn : '\n' ∉ c) : takeToNewline c = c := by
  induction c with
  | nil => rfl
  | cons x xs ih =>
    simp only [List.mem_cons, not_or] at hn
    have hx : ¬(x = '\n') := fun h => hn.1 h.symm
    simp only [takeToNewline, List.takeWhile, hx, decide_False, Bool.not_false]
    exact congrArg (x :: ·) (ih hn.2)

theorem dropLit_eq (p s r : List Char) (h : dropLit p s = some r) : s = p ++ r := by
  induction p generalizing s with
  | nil =>
    simp only [dropLit, Option.some.injEq] at h
    simpa using h
  | cons c cs ih =>
    cases s with
    | nil => simp [dropLit] at h
    | cons x xs =>
      by_cases hx : x = c
      · subst hx; simp only [dropLit, if_pos rfl] at h; simpa using ih xs h
      · simp [dropLit, hx] at h

theorem lazyUpToPlus_eq (s a r : List Char) (h : lazyUpToPlus s = some (a, r)) :
    s = a ++ '+' :: r ∧ '+' ∉ a ∧ '\n' ∉ a := by
  induction s generalizing a with
  | nil => simp [lazyUpToPlus] at h
  | cons c cs ih =>
    by_cases hc : c = '+'
    · subst hc
      simp [lazyUpToPlus] at h
      obtain ⟨ha, hr⟩ := h
      subst ha; subst hr; simp
    · by_cases hn : c = '\n'
      · subst hn; simp [lazyUpToPlus] at h
      · simp only [lazyUpToPlus, if_neg hc, if_neg hn] at h
        cases hrec : lazyUpToPlus cs with
        | none => rw [hrec] at h; simp at h
        | some pr =>
          rw [hrec] at h
          obtain ⟨a', r'⟩ := pr
          simp at h
          obtain ⟨ha, hr⟩ := h
          subst hr
          obtain ⟨h1, h2, h3⟩ := ih a' hrec
          subst ha
          refine ⟨by simp [h1], ?_, ?_⟩
          · intro hmem
            rcases List.mem_cons.mp hmem with h | h
            · exact hc h.symm
            · exact h2 h
          · intro hmem
            rcases List.mem_cons.mp hmem with h | h
            · exact hn h.symm
            · exact h3 h

theorem matchCourseShape_of_shape (A B C : List Char)
    (hpa : '+' ∉ A) (hna : '\n' ∉ A) (hpb : '+' ∉ B) (hnb : '\n' ∉ B) (hnc : '\n' ∉ C) :
    matchCourseShape ("course-v1:".data ++ (A ++ ('+' :: (B ++ ('+' :: C))))) = some (A, B, C) := by
  simp only [matchCourseShape, dropLit_append, Option.some_bind,
    lazyUpToPlus_append A (B ++ ('+' :: C)) hpa hna,
    lazyUpToPlus_append B C hpb hnb, takeToNewline_all C hnc]

/-- C5: for every platform-qualified course ID of the shape
`course-v1:<A>+<B>+<C>` (with `A`, `B` the `+`-free segments and no
newline characters, as in real platform IDs), `extract_course_short_id`
returns exactly `<A>_<B>_<C>`; and on every string not matching the shape
it is the identity. -/
theorem extract_course_short_id_spec :
    (∀ A B C : List Char, '+' ∉ A → '\n' ∉ A → '+' ∉ B → '\n' ∉ B → '\n' ∉ C →
      extract_course_short_id ⟨"course-v1:".data ++ (A ++ ('+' :: (B ++ ('+' :: C))))⟩ =
        ⟨A ++ ('_' :: (B ++ ('_' :: C)))⟩) ∧
    (∀ s : String, ¬ matchesShape s → extract_course_short_id s = s) := by
  constructor
  · intro A B C hpa hna hpb hnb hnc
    have hm := matchCourseShape_of_shape A B C hpa hna hpb hnb hnc
    show (match matchCourseShape ("course-v1:".data ++ (A ++ ('+' :: (B ++ ('+' :: C))))) with
      | none => (⟨"course-v1:".data ++ (A ++ ('+' :: (B ++ ('+' :: C))))⟩ : String)
      | some (a, b, c) => (⟨a ++ '_' :: b ++ '_' :: c⟩ : String)) =
      ⟨A ++ ('_' :: (B ++ ('_' :: C)))⟩
    rw [hm]
    show (⟨A ++ '_' :: B ++ '_' :: C⟩ : String) = ⟨A ++ ('_' :: (B ++ ('_' :: C)))⟩
    exact congrArg (fun l => (⟨l⟩ : String)) (by simp)
  · intro s hns
    by_contra hne
    apply hns
    unfold extract_course_short_id at hne
    cases hm : matchCourseShape s.data with
    | none => rw [hm] at hne; exact absurd rfl hne
    | some abc =>
      obtain ⟨a, b, c⟩ := abc
      unfold matchCourseShape at hm
      rw [Option.bind_eq_some] at hm
      obtain ⟨r0, hd, hm⟩ := hm
      rw [Option.bind_eq_some] at hm
      obtain ⟨p1, h1, hm⟩ := hm
      rw [Option.bind_eq_some] at hm
      obtain ⟨p2, h2, -⟩ := hm
      obtain ⟨a', r1⟩ := p1
      obtain ⟨b', r2⟩ := p2
      obtain ⟨d1, d2, d3⟩ := lazyUpToPlus_eq r0 a' r1 h1
      obtain ⟨e1, e2, e3⟩ := lazyUpToPlus_eq r1 b' r2 h2
      have hs := dropLit_eq _ _ _ hd
      exact ⟨a', b', r2, d2, d3, e2, e3, by rw [hs, d1, e1]; simp⟩

theorem not_shape_invalid : ¬ matchesShape "invalid_course_id" := by
  rintro ⟨A, B, C, -, -, -, -, h⟩
  have e1 : "invalid_course_id".data = 'i' :: "nvalid_course_id".data := rfl
  have e2 : "course-v1:".data = 'c' :: "ourse-v1:".data := rfl
  rw [e1, e2] at h
  have h2 := congrArg List.head? h
  simp at h2

/-- Witness for C5 at the spec's own examples. -/
theorem extract_course_short_id_spec_witness :
    extract_course_short_id "course-v1:UrFU+PYTHON+2025_fall" = "UrFU_PYTHON_2025_fall" ∧
    extract_course_short_id "invalid_course_id" = "invalid_course_id" := by
  constructor
  · have h := extract_course_short_id_spec.1 "UrFU".data "PYTHON".data "2025_fall".data
      (by decide) (by decide) (by decide) (by decide) (by decide)
    have e1 : ("course-v1:UrFU+PYTHON+2025_fall" : String)
        = ⟨"course-v1:".data ++ ("UrFU".data ++ ('+' :: ("PYTHON".data ++ ('+' :: "2025_fall".data))))⟩ := by
      decide
    have e2 : ("UrFU_PYTHON_2025_fall" : String)
        = ⟨"UrFU".data ++ ('_' :: ("PYTHON".data ++ ('_' :: "2025_fall".data)))⟩ := by decide
    rw [e1, e2]
    exact h
  · exact extract_course_short_id_spec.2 "invalid_course_id" not_shape_invalid

/-- C4: the spec's two filename examples: the well-formed grade-report
filename parses to course `UrFU_PYTHON_2025_fall`, kind `grade_report`
and UTC timestamp 2025-10-14 20:15; `invalid_filename.csv` yields no
match. -/
theorem parse_filename_examples :
    parse_filename "UrFU_PYTHON_2025_fall_grade_report_2025-10-14-2015.csv" =
      some { course_id := "UrFU_PYTHON_2025_fall", report_type := "grade_report",
             date := some ⟨2025, 10, 14, 20, 15⟩ } ∧
    parse_filename "invalid_filename.csv" = none := by
  constructor
  · decide
  · decide

theorem insertCol_fold_mem (acc ks : List String) (h : ∀ k ∈ ks, k ∈ acc) :
    ks.foldl insertCol acc = acc := by
  induction ks generalizing acc with
  | nil => rfl
  | cons k ks ih =>
    have hk : k ∈ acc := h k (by simp)
    simp only [List.foldl, insertCol, if_pos hk]
    exact ih acc (fun x hx => h x (by simp [hx]))

theorem dfColumnsOfRows_const (r : List (String × Cell)) (rest : List (List (String × Cell)))
    (hk : ∀ x ∈ r :: rest, x.map Prod.fst = ["course_id", "report_type", "date", "path"]) :
    dfColumnsOfRows (r :: rest) = ["course_id", "report_type", "date", "path"] := by
  unfold dfColumnsOfRows
  simp only [List.foldl]
  rw [hk r (by simp),
    show (["course_id", "report_type", "date", "path"] : List String).foldl insertCol []
      = ["course_id", "report_type", "date", "path"] from by decide]
  induction rest with
  | nil => rfl
  | cons x rest ih =>
    simp only [List.foldl]
    rw [hk x (by simp), insertCol_fold_mem _ _ (fun k hx => hx)]
    exact ih (fun y hy => by
      rcases List.mem_cons.mp hy with h | h
      · exact hk y (by simp [h])
      · exact hk y (by simp [List.mem_cons.mpr (Or.inr h)]))

/-- C10: for every scanned directory tree (including one with no files or
no parseable report filenames) the table built by `scan_grade_reports`
has exactly the columns course_id, report_type, date, path, in that
order. -/
theorem scan_grade_reports_columns (walk : List (String × List String)) :
    scanColumns walk = ["course_id", "report_type", "date", "path"] := by
  have hk : ∀ x ∈ (scan_grade_reports walk).map rowKeyValues,
      x.map Prod.fst = ["course_id", "report_type", "date", "path"] := by
    intro x hx
    obtain ⟨rr, -, h⟩ := List.mem_map.mp hx
    rw [← h]
    rfl
  simp only [scanColumns]
  cases hr : (scan_grade_reports walk).map rowKeyValues with
  | nil => rfl
  | cons r rest =>
    rw [hr] at hk
    simpa using dfColumnsOfRows_const r rest hk

/-- C1 (divergence witness): with one course and an empty report table
the summary built by `process_courses_data` is empty — the source never
appends the placeholder row the claim requires for a (course, kind) pair
without reports. -/
theorem process_courses_data_omits_empty_pairs :
    process_courses_data ⟨2025, 10, 16, 12, 0⟩
      [{ id := "course-v1:UrFU+PYTHON+2025_fall", name := "Python" }] [] = [] := by
  decide

theorem get_all_courses_loop_step (ep : Nat → PageFetch) (page : Nat) (acc : List Course)
    (reqs : List Nat) (data : PageJson) (hd : ep page = .responded 200 (some data))
    (hne : data.results ≠ []) (hnx : truthyNext data.next = true) (hlt : page < 10) :
    get_all_courses_loop ep page acc reqs =
      get_all_courses_loop ep (page + 1) (acc ++ data.results) (reqs ++ [page]) := by
  rw [get_all_courses_loop, hd]
  simp [hne, hnx, hlt, List.isEmpty_iff]

theorem get_all_courses_loop_fail (ep : Nat → PageFetch) (page : Nat) (acc : List Course)
    (reqs : List Nat) (h : failingPage (ep page)) :
    get_all_courses_loop ep page acc reqs = .done acc (reqs ++ [page]) := by
  obtain ⟨status, body, hp, hcase⟩ := h
  rw [get_all_courses_loop, hp]
  rcases hcase with hs | hb
  · simp [hs]
  · subst hb
    by_cases h2 : status = 200 <;> simp [h2]

theorem get_all_courses_loop_empty (ep : Nat → PageFetch) (page : Nat) (acc : List Course)
    (reqs : List Nat) (h : emptyResultsPage (ep page)) :
    get_all_courses_loop ep page acc reqs = .done acc (reqs ++ [page]) := by
  obtain ⟨nx, hp⟩ := h
  rw [get_all_courses_loop, hp]
  simp

theorem get_all_courses_loop_last (ep : Nat → PageFetch) (page : Nat) (acc : List Course)
    (reqs : List Nat) (data : PageJson)
    (hd : ep page = .responded 200 (some data)) (hne : data.results ≠ [])
    (hstop : ¬(truthyNext data.next = true ∧ page < 10)) :
    get_all_courses_loop ep page acc reqs = .done (acc ++ data.results) (reqs ++ [page]) := by
  rw [get_all_courses_loop, hd]
  simp [hne, hstop, List.isEmpty_iff]

theorem get_all_courses_loop_run (ep : Nat → PageFetch) :
    ∀ (m page : Nat) (acc : List Course) (reqs : List Nat),
      page + m ≤ 10 →
      (∀ j, page ≤ j → j < page + m → continuingPage (ep j)) →
      get_all_courses_loop ep page acc reqs =
        get_all_courses_loop ep (page + m)
          (acc ++ (List.range' page m).flatMap (fun j => pageResults (ep j)))
          (reqs ++ List.range' page m) := by
  intro m
  induction m with
  | zero => intro page acc reqs _ _; simp [List.range']
  | succ m ih =>
    intro page acc reqs hle hcont
    obtain ⟨data, hd, hne, hnx⟩ := hcont page le_rfl (by omega)
    rw [get_all_courses_loop_step ep page acc reqs data hd hne hnx (by omega)]
    rw [ih (page + 1) (acc ++ data.results) (reqs ++ [page]) (by omega)
      (fun j hj1 hj2 => hcont j (by omega) (by omega))]
    have hpr : pageResults (ep page) = data.results := by rw [hd]; rfl
    have e : page + (m + 1) = (page + 1) + m := by omega
    rw [e, List.range'_succ]
    simp [hpr, List.flatMap_cons, List.append_assoc]

theorem loop_step_or_stop (ep : Nat → PageFetch) (page : Nat) (acc : List Course)
    (reqs : List Nat) :
    (∃ data : PageJson, page < 10 ∧
      get_all_courses_loop ep page acc reqs =
        get_all_courses_loop ep (page + 1) (acc ++ data.results) (reqs ++ [page])) ∨
    (get_all_courses_loop ep page acc reqs).requests = reqs ++ [page] := by
  cases hep : ep page with
  | raised => right; rw [get_all_courses_loop, hep]; rfl
  | responded status body =>
    by_cases h200 : status = 200
    · subst h200
      cases body with
      | none => right; rw [get_all_courses_loop, hep]; rfl
      | some data =>
        by_cases hemp : data.results = []
        · right
          rw [get_all_courses_loop_empty ep page acc reqs ⟨data.next, by rw [hep]; cases data; simp_all⟩]
          rfl
        · by_cases hcond : truthyNext data.next = true ∧ page < 10
          · left
            exact ⟨data, hcond.2,
              get_all_courses_loop_step ep page acc reqs data hep hemp hcond.1 hcond.2⟩
          · right
            rw [get_all_courses_loop_last ep page acc reqs data hep hemp hcond]
            rfl
    · right
      rw [get_all_courses_loop_fail ep page acc reqs ⟨status, body, hep, Or.inl h200⟩]
      rfl

theorem get_all_courses_loop_req_bound (ep : Nat → PageFetch) :
    ∀ (fuel page : Nat) (acc : List Course) (reqs : List Nat),
      10 - page < fuel → page ≤ 10 →
      ((get_all_courses_loop ep page acc reqs).requests).length ≤ reqs.length + (11 - page) := by
  intro fuel
  induction fuel with
  | zero => intro page acc reqs hfuel _; omega
  | succ fuel ih =>
    intro page acc reqs hfuel hp
    rcases loop_step_or_stop ep page acc reqs with ⟨data, hlt, heq⟩ | hstop
    · rw [heq]
      have hrec := ih (page + 1) (acc ++ data.results) (reqs ++ [page]) (by omega) (by omega)
      calc ((get_all_courses_loop ep (page + 1) (acc ++ data.results) (reqs ++ [page])).requests).length
          ≤ (reqs ++ [page]).length + (11 - (page + 1)) := hrec
        _ ≤ reqs.length + (11 - page) := by simp [List.length_append]; omega
    · rw [hstop]
      simp [List.length_append]
      omega

/-- C2: for every page oracle the batch driver's catalog enumeration
issues at most 10 page requests; when every page keeps reporting a
truthy `next` (and data), it stops exactly at the 10-page cap, returning
the courses collected so far rather than an error. -/
theorem get_all_courses_page_cap (ep : Nat → PageFetch) :
    (get_all_courses ep).2.length ≤ 10 ∧
    ((∀ j, 1 ≤ j → j ≤ 10 → continuingPage (ep j)) →
      get_all_courses ep =
        ((List.range' 1 10).flatMap (fun j => pageResults (ep j)), List.range' 1 10)) := by
  constructor
  · have hb := get_all_courses_loop_req_bound ep 10 1 [] [] (by omega) (by omega)
    unfold get_all_courses
    cases hout : get_all_courses_loop ep 1 [] [] with
    | done cs reqs =>
      rw [hout] at hb
      simpa [FetchOutcome.requests] using hb
    | exn reqs =>
      rw [hout] at hb
      simpa [FetchOutcome.requests] using hb
  · intro hcont
    have hrun := get_all_courses_loop_run ep 9 1 [] [] (by omega)
      (fun j h1 h2 => hcont j h1 (by omega))
    rw [show (1 + 9 : Nat) = 10 from rfl] at hrun
    obtain ⟨data, hd, hne, hnx⟩ := hcont 10 (by omega) (by omega)
    have hlast := get_all_courses_loop_last ep 10
      ([] ++ (List.range' 1 9).flatMap fun j => pageResults (ep j))
      ([] ++ List.range' 1 9) data hd hne
      (fun hc => absurd hc.2 (by omega))
    unfold get_all_courses
    rw [hrun, hlast]
    have hpr : pageResults (ep 10) = data.results := by rw [hd]; rfl
    have hfl : (List.range' 1 10).flatMap (fun j => pageResults (ep j)) =
        (List.range' 1 9).flatMap (fun j => pageResults (ep j)) ++ data.results := by
      rw [show (10 : Nat) = 9 + 1 from rfl, List.range'_concat]
      simp [hpr]
    rw [hfl]
    simp [show List.range' 1 9 ++ [10] = List.range' 1 10 from by decide]

/-- Witness for C2: the always-`next` synthetic endpoint stops after
exactly the ten requests for pages 1..10. -/
theorem get_all_courses_page_cap_witness :
    get_all_courses capEp =
      (List.replicate 10 sampleCourse, [1, 2, 3, 4, 5, 6, 7, 8, 9, 10]) := by
  have h := (get_all_courses_page_cap capEp).2
    (fun j _ _ => ⟨⟨[sampleCourse], some "next"⟩, rfl, by decide, by decide⟩)
  rw [h]
  decide

theorem range'_concat_self (k : Nat) (h1 : 1 ≤ k) :
    List.range' 1 (k - 1) ++ [k] = List.range' 1 k := by
  conv_rhs => rw [show k = (k - 1) + 1 from by omega]
  rw [List.range'_concat]
  congr 2
  omega

/-- C3: whenever the first failing page (non-200 status or malformed
JSON) is page `k` of the capped range and every earlier page kept the
enumeration going, the batch driver's catalog enumeration stops at page
`k` and returns the courses collected from pages `1..k-1` — an empty
list when the very first page fails — instead of raising. -/
theorem get_all_courses_failure_partial (ep : Nat → PageFetch) (k : Nat)
    (h1 : 1 ≤ k) (h2 : k ≤ 10) (hfail : failingPage (ep k))
    (hgood : ∀ j, 1 ≤ j → j < k → continuingPage (ep j)) :
    get_all_courses ep =
      ((List.range' 1 (k - 1)).flatMap (fun j => pageResults (ep j)), List.range' 1 k) := by
  have hrun := get_all_courses_loop_run ep (k - 1) 1 [] [] (by omega)
    (fun j hj1 hj2 => hgood j hj1 (by omega))
  rw [show 1 + (k - 1) = k from by omega] at hrun
  have hfl := get_all_courses_loop_fail ep k
    ([] ++ (List.range' 1 (k - 1)).flatMap fun j => pageResults (ep j))
    ([] ++ List.range' 1 (k - 1)) hfail
  unfold get_all_courses
  rw [hrun, hfl]
  simp [range'_concat_self k h1]

/-- Witness for C3: page 1 succeeds, page 2 answers 200 with malformed
JSON; the enumeration returns the page-1 courses after requests 1 and 2. -/
theorem get_all_courses_failure_partial_witness :
    get_all_courses failEp = ([sampleCourse], [1, 2]) := by
  have h := get_all_courses_failure_partial failEp 2 (by omega) (by omega)
    ⟨200, none, rfl, Or.inr rfl⟩
    (fun j hj1 hj2 => by
      have hj : j = 1 := by omega
      subst hj
      exact ⟨⟨[sampleCourse], some "next"⟩, rfl, by decide, by decide⟩)
  rw [h]
  decide

/-- C8: whenever page `k` of the capped range answers 200 with valid JSON
whose `results` list is empty — even with a non-null `next` pointer — and
every earlier page kept the enumeration going, the enumeration stops at
page `k` and returns the courses collected from pages `1..k-1`. -/
theorem get_all_courses_empty_results_stop (ep : Nat → PageFetch) (k : Nat)
    (h1 : 1 ≤ k) (h2 : k ≤ 10) (hempty : emptyResultsPage (ep k))
    (hgood : ∀ j, 1 ≤ j → j < k → continuingPage (ep j)) :
    get_all_courses ep =
      ((List.range' 1 (k - 1)).flatMap (fun j => pageResults (ep j)), List.range' 1 k) := by
  have hrun := get_all_courses_loop_run ep (k - 1) 1 [] [] (by omega)
    (fun j hj1 hj2 => hgood j hj1 (by omega))
  rw [show 1 + (k - 1) = k from by omega] at hrun
  have hel := get_all_courses_loop_empty ep k
    ([] ++ (List.range' 1 (k - 1)).flatMap fun j => pageResults (ep j))
    ([] ++ List.range' 1 (k - 1)) hempty
  unfold get_all_courses
  rw [hrun, hel]
  simp [range'_concat_self k h1]

/-- Witness for C8: page 1 succeeds, page 2 answers 200 with empty
`results` and a non-null `next`; enumeration stops after requests 1, 2. -/
theorem get_all_courses_empty_results_stop_witness :
    get_all_courses emptyEp = ([sampleCourse], [1, 2]) := by
  have h := get_all_courses_empty_results_stop emptyEp 2 (by omega) (by omega)
    ⟨some "next", rfl⟩
    (fun j hj1 hj2 => by
      have hj : j = 1 := by omega
      subst hj
      exact ⟨⟨[sampleCourse], some "next"⟩, rfl, by decide, by decide⟩)
  rw [h]
  decide

theorem retryLoop_ok {E A : Type} (op : Nat → Except E A) (r attempt delay : Nat)
    (sleeps : List Nat) (a : A) (h : op attempt = .ok a) :
    retryLoop op (r + 1) attempt delay sleeps = (some (.ok a), attempt + 1, sleeps) := by
  simp [retryLoop, h]

theorem retryLoop_err_mid {E A : Type} (op : Nat → Except E A) (r attempt delay : Nat)
    (sleeps : List Nat) (e : E) (h : op attempt = .error e) (hr : r ≠ 0) :
    retryLoop op (r + 1) attempt delay sleeps =
      retryLoop op r (attempt + 1) (delay * 2) (sleeps ++ [delay]) := by
  simp [retryLoop, h, hr]

/-- C6: an operation failing on its first two invocations and succeeding
on the third, run under `retry_operation` with `max_retries = 3` and
initial delay `d`, is invoked exactly 3 times, sleeps `d` after the first
failure and `2*d` after the second, and returns the third invocation's
success. -/
theorem retry_operation_third_attempt {E A : Type} (op : Nat → Except E A) (d : Nat)
    (e0 e1 : E) (a : A) (h0 : op 0 = .error e0) (h1 : op 1 = .error e1)
    (h2 : op 2 = .ok a) :
    retry_operation op 3 d = (some (.ok a), 3, [d, d * 2]) := by
  have s1 : retry_operation op 3 d = retryLoop op 2 1 (d * 2) [d] := by
    have h := retryLoop_err_mid op 2 0 d [] e0 h0 (by omega)
    simpa [retry_operation] using h
  have s2 : retryLoop op 2 1 (d * 2) [d] = retryLoop op 1 2 (d * 2 * 2) [d, d * 2] := by
    have h := retryLoop_err_mid op 1 1 (d * 2) [d] e1 h1 (by omega)
    simpa using h
  have s3 : retryLoop op 1 2 (d * 2 * 2) [d, d * 2] = (some (.ok a), 3, [d, d * 2]) := by
    have h := retryLoop_ok op 0 2 (d * 2 * 2) [d, d * 2] a h2
    simpa using h
  rw [s1, s2, s3]

/-- Witness for C6 at a concrete operation and `delay = 5`. -/
theorem retry_operation_third_attempt_witness :
    retry_operation thirdTryOp 3 5 = (some (.ok 42), 3, [5, 10]) := by
  have h := retry_operation_third_attempt thirdTryOp 5 "boom" "boom" 42 rfl rfl rfl
  simpa using h

theorem course_trigger_loop_fail_le (trigger : String → Bool) (cs : List CourseEntry) :
    (course_trigger_loop trigger cs).2.1 ≤ cs.length := by
  induction cs with
  | nil => simp [course_trigger_loop]
  | cons c rest ih =>
    cases hid : c.id with
    | none => simp only [course_trigger_loop, hid, List.length_cons]; omega
    | some cid =>
      by_cases hemp : cid = ""
      · simp only [course_trigger_loop, hid, if_pos hemp, List.length_cons]; omega
      · by_cases htr : trigger cid <;>
          simp only [course_trigger_loop, hid, if_neg hemp, htr, if_pos, if_neg,
            Bool.false_eq_true, if_false, if_true, List.length_cons] <;> omega

theorem course_trigger_loop_allfail_iff (trigger : String → Bool) (cs : List CourseEntry) :
    (course_trigger_loop trigger cs).2.1 = cs.length ↔
      ∀ c ∈ cs, ∃ cid, c.id = some cid ∧ cid ≠ "" ∧ trigger cid = false := by
  induction cs with
  | nil => simp [course_trigger_loop]
  | cons c rest ih =>
    have hle := course_trigger_loop_fail_le trigger rest
    cases hid : c.id with
    | none =>
      have heq : course_trigger_loop trigger (c :: rest) = course_trigger_loop trigger rest := by
        simp [course_trigger_loop, hid]
      rw [heq, List.length_cons]
      constructor
      · intro h; omega
      · intro h
        obtain ⟨cid, hcid, -, -⟩ := h c (by simp)
        rw [hid] at hcid
        exact Option.noConfusion hcid
    | some cid =>
      by_cases hemp : cid = ""
      · subst hemp
        have heq : course_trigger_loop trigger (c :: rest) = course_trigger_loop trigger rest := by
          simp [course_trigger_loop, hid]
        rw [heq, List.length_cons]
        constructor
        · intro h; omega
        · intro h
          obtain ⟨cid', hcid, hne, -⟩ := h c (by simp)
          rw [hid] at hcid
          exact absurd ((Option.some.injEq _ _).mp hcid).symm hne
      · by_cases htr : trigger cid
        · have heq : (course_trigger_loop trigger (c :: rest)).2.1 =
              (course_trigger_loop trigger rest).2.1 := by
            simp [course_trigger_loop, hid, hemp, htr]
          rw [heq, List.length_cons]
          constructor
          · intro h; omega
          · intro h
            obtain ⟨cid', hcid, -, hfl⟩ := h c (by simp)
            rw [hid] at hcid
            obtain rfl : cid = cid' := by simpa using hcid
            rw [htr] at hfl
            exact Bool.noConfusion hfl
        · have heq : (course_trigger_loop trigger (c :: rest)).2.1 =
              (course_trigger_loop trigger rest).2.1 + 1 := by
            simp [course_trigger_loop, hid, hemp, htr]
          rw [heq, List.length_cons]
          constructor
          · intro h
            intro x hx
            rcases List.mem_cons.mp hx with hx | hx
            · subst hx
              exact ⟨cid, hid, hemp, by simpa using htr⟩
            · exact (ih.mp (by omega)) x hx
          · intro h
            have := ih.mpr (fun x hx => h x (by simp [hx]))
            omega

/-- C7: the batch driver's exit code is always 0 or 1, and it is 1
exactly when an unhandled fatal error occurred before the course loop
(authentication), when zero courses were discovered, or when every course
in the list carried a usable ID and its (retried) report trigger failed;
in every other situation — all successes or mixed results — it is 0. -/
theorem main_exit_code_spec (authOk : Bool) (trigger : String → Bool)
    (courses : List CourseEntry) :
    (main_exit_code authOk trigger courses = 0 ∨ main_exit_code authOk trigger courses = 1) ∧
    (main_exit_code authOk trigger courses = 1 ↔
      (authOk = false ∨ courses = [] ∨
        ∀ c ∈ courses, ∃ cid, c.id = some cid ∧ cid ≠ "" ∧ trigger cid = false)) := by
  cases authOk with
  | false => simp [main_exit_code]
  | true =>
    cases courses with
    | nil => simp [main_exit_code]
    | cons c rest =>
      have hiff := course_trigger_loop_allfail_iff trigger (c :: rest)
      simp only [List.length_cons] at hiff
      by_cases hall : (course_trigger_loop trigger (c :: rest)).2.1 = rest.length + 1
      · refine ⟨Or.inr (by simp [main_exit_code, hall]), ?_, ?_⟩
        · intro _
          exact Or.inr (Or.inr (hiff.mp hall))
        · intro _
          simp [main_exit_code, hall]
      · refine ⟨Or.inl (by simp [main_exit_code, hall]), ?_, ?_⟩
        · intro h1
          exact absurd h1 (by simp [main_exit_code, hall])
        · rintro (h | h | h)
          · exact Bool.noConfusion h
          · exact List.noConfusion h
          · exact absurd (hiff.mpr h) hall

/-- C9: an entry whose `id` is missing or empty is skipped, leaving both
counters and the attempted list untouched; consequently a non-empty
course list in which every entry lacks a usable ID triggers no report at
all and still exits with code 0. -/
theorem skipped_courses_uncounted (trigger : String → Bool) (courses : List CourseEntry) :
    (∀ c rest, entrySkipped c = true →
      course_trigger_loop trigger (c :: rest) = course_trigger_loop trigger rest) ∧
    (courses ≠ [] → (∀ c ∈ courses, entrySkipped c = true) →
      course_trigger_loop trigger courses = (0, 0, []) ∧
      main_exit_code true trigger courses = 0) := by
  have hskip : ∀ c rest, entrySkipped c = true →
      course_trigger_loop trigger (c :: rest) = course_trigger_loop trigger rest := by
    intro c rest hc
    cases hid : c.id with
    | none => simp [course_trigger_loop, hid]
    | some cid =>
      have : cid = "" := by simpa [entrySkipped, hid] using hc
      simp [course_trigger_loop, hid, this]
  refine ⟨hskip, fun hne hall => ?_⟩
  have hloop : course_trigger_loop trigger courses = (0, 0, []) := by
    clear hne
    induction courses with
    | nil => rfl
    | cons c rest ih =>
      rw [hskip c rest (hall c (by simp))]
      exact ih (fun x hx => hall x (by simp [hx]))
  refine ⟨hloop, ?_⟩
  cases courses with
  | nil => exact absurd rfl hne
  | cons c rest =>
    have h0 : ¬((course_trigger_loop trigger (c :: rest)).2.1 = rest.length + 1) := by
      rw [hloop]
      simp
    simp [main_exit_code, h0]

/-- Witness for C9: two entries, one with no `id` and one with an empty
`id`, under an always-failing trigger: nothing is attempted or counted
and the driver exits 0. -/
theorem skipped_courses_uncounted_witness :
    course_trigger_loop alwaysFailTrigger noIdCourses = (0, 0, []) ∧
    main_exit_code true alwaysFailTrigger noIdCourses = 0 :=
  (skipped_courses_uncounted alwaysFailTrigger noIdCourses).2 (by decide) (by decide)

end EdxReports
